import Mathlib

/-!
Verification development for the `openapi_gen` repository: a shallow
embedding of the OpenAPI generator (`src/_tool.py`, `src/utils.py`,
`src/gen_types.py`) together with theorems settling the specification
claims.  Python dictionaries become insertion-ordered association lists,
Python's in-place mutation becomes explicit state threading, and raised
exceptions become `Except` errors.
-/

namespace OpenapiGen

/-- YAML/JSON-shaped values: the shape of every schema fragment, parameter
object and document node the generator manipulates.  `vObj` keeps the
insertion order of a Python `dict`. -/
inductive Val where
  | vStr  : String → Val
  | vInt  : Int → Val
  | vBool : Bool → Val
  | vArr  : List Val → Val
  | vObj  : List (String × Val) → Val

/-- Association lists standing for insertion-ordered Python dicts. -/
abbrev AList (α : Type) := List (String × α)

/-- Membership test `k in d` on a Python dict. -/
def hasKey (d : AList α) (k : String) : Bool :=
  d.any (fun kv => kv.1 == k)

/-- Lookup `d[k]` / `d.get(k)` on a Python dict. -/
def dget (d : AList α) (k : String) : Option α :=
  (d.find? (fun kv => kv.1 == k)).map (fun kv => kv.2)

/-- Assignment `d[k] = v` on a Python dict: updates the value in place when the key is
present (keeping its position), otherwise appends the new entry at the end. -/
def dset (d : AList α) (k : String) (v : α) : AList α :=
  if hasKey d k then d.map (fun kv => if kv.1 == k then (k, v) else kv)
  else d ++ [(k, v)]

/-- Removal `d.pop(k)` (ignoring the returned value). -/
def dpop (d : AList α) (k : String) : AList α :=
  d.filter (fun kv => kv.1 != k)

/-- Update `d.update(n)` / `d |= n` on Python dicts: sets each entry of `n`
into `d` in order. -/
def dupdate (d n : AList α) : AList α :=
  n.foldl (fun acc kv => dset acc kv.1 kv.2) d

/-- A `$ref` fragment pointing into `#/components/schemas`. -/
def refSchema (name : String) : Val :=
  .vObj [("$ref", .vStr ("#/components/schemas/" ++ name))]

/-- Whether a schema fragment is a dict carrying a `"$ref"` key
(`"$ref" in schemas[k]` in the source). -/
def isRefFragment : Val → Bool
  | .vObj kvs => hasKey kvs "$ref"
  | _ => false

/-! ### Python string plumbing (`utils.py` and `str` methods used) -/

/-- Does the character code fall in ASCII `A`–`Z`?  Mirrors the range
check Python's `str.lower`/`str.upper` perform on ASCII letters. -/
def isUpperCh (c : Char) : Bool := 65 ≤ c.toNat && c.toNat ≤ 90

/-- Is the character ASCII `a`–`z`? -/
def isLowerCh (c : Char) : Bool := 97 ≤ c.toNat && c.toNat ≤ 122

/-- ASCII lower-casing of one character (`str.lower` on the letters the
generator manipulates). -/
def lowerCh (c : Char) : Char :=
  if isUpperCh c then Char.ofNat (c.toNat + 32) else c

/-- ASCII upper-casing of one character. -/
def upperCh (c : Char) : Char :=
  if isLowerCh c then Char.ofNat (c.toNat - 32) else c

/-- Python `str.lower` over the character list. -/
def pyLowerL (l : List Char) : List Char := l.map lowerCh

/-- Python `str.lower`. -/
def pyLower (s : String) : String := ⟨pyLowerL s.data⟩

/-- Python `str.capitalize`: first character upper-cased, the rest lower-cased. -/
def pyCapitalizeL : List Char → List Char
  | [] => []
  | c :: rest => upperCh c :: pyLowerL rest

/-- Python `str.capitalize`. -/
def pyCapitalize (s : String) : String := ⟨pyCapitalizeL s.data⟩

/-- Test `s.startswith("_")`: the internal-marker test on field names. -/
def startsUnderscore (s : String) : Bool :=
  match s.data with
  | '_' :: _ => true
  | _ => false

/-- Test `s.startswith("/")`: the path-normalization test. -/
def startsSlash (s : String) : Bool :=
  match s.data with
  | '/' :: _ => true
  | _ => false

/-- Python `string.split("_")` over the character list (Python keeps empty parts). -/
def splitUnderscoreL : List Char → List (List Char)
  | [] => [[]]
  | c :: rest =>
    if c = '_' then [] :: splitUnderscoreL rest
    else
      match splitUnderscoreL rest with
      | p :: ps => (c :: p) :: ps
      | [] => [[c]]

/-- Medial capitalization of one split part: upper-case the head character. -/
def capHead : List Char → List Char
  | [] => []
  | c :: rest => upperCh c :: rest

/-- Embedding of `snake_case_to_camel_case` from `utils.py`: split on `_`, keep the
first (enumerated) part as is, medial-capitalize the others, drop empty
parts, join. -/
def snakeToCamelL (l : List Char) : List Char :=
  ((splitUnderscoreL l).enum.filter (fun pi => pi.2 ≠ [])).foldr
    (fun pi acc => (if pi.1 = 0 then pi.2 else capHead pi.2) ++ acc) []

/-- Embedding of `snake_case_to_camel_case` on `String`. -/
def snake_case_to_camel_case (s : String) : String := ⟨snakeToCamelL s.data⟩

/-! ### `deep_change_keys_by_format` (`utils.py`) -/

mutual
/-- Embedding of `deep_change_keys_by_format`: rewrites every mapping key at every
nesting level with `f`, recurses into list elements, leaves other values
(in particular strings) unchanged. -/
def deepChange (f : String → String) : Val → Val
  | .vArr l => .vArr (deepChangeList f l)
  | .vObj kvs => .vObj (deepChangeObj f kvs)
  | v => v

/-- List elements of `deep_change_keys_by_format`. -/
def deepChangeList (f : String → String) : List Val → List Val
  | [] => []
  | v :: vs => deepChange f v :: deepChangeList f vs

/-- Dict entries of `deep_change_keys_by_format`. -/
def deepChangeObj (f : String → String) : List (String × Val) → List (String × Val)
  | [] => []
  | (k, v) :: kvs => (f k, deepChange f v) :: deepChangeObj f kvs
end

/-! ### Type descriptors (the reflected Python annotations) -/

/-- A dataclass field's default value as far as the generator inspects it:
a string default (used for `_contentType` and `domainName`), `None`
(`dNone`, also what `AbstractInput` supplies for `bodyInput`), or absent
(`Option.none` on the field) when the annotation carries no default. -/
inductive Dflt where
  | dstr : String → Dflt
  | dNone : Dflt

mutual
/-- The type descriptors `type_to_schema` discriminates on: primitives,
`NoneType` (`tNone`), unions, lists, enums, dataclasses (`tRec`), and
anything unrecognized (`tOther`, e.g. `dict` or a string annotation). -/
inductive Ty where
  | tStr : Ty
  | tInt : Ty
  | tFloat : Ty
  | tBool : Ty
  | tNone : Ty
  | tOther : Ty
  | tUnion : List Ty → Ty
  | tList : Ty → Ty
  | tEnum : String → List String → Ty
  | tRec : String → List Fld → Ty

/-- A dataclass field: name, default (per `dataclasses.fields`), type. -/
inductive Fld where
  | mk : String → Option Dflt → Ty → Fld
end

/-- Field name accessor. -/
def Fld.name : Fld → String
  | .mk n _ _ => n

/-- Field default accessor. -/
def Fld.dflt : Fld → Option Dflt
  | .mk _ d _ => d

/-- Field type accessor. -/
def Fld.ty : Fld → Ty
  | .mk _ _ t => t

/-- Is the descriptor `NoneType` (the `a is not type(None)` filter)? -/
def Ty.isNoneTy : Ty → Bool
  | .tNone => true
  | _ => false

/-- Embedding of `OpenApiGenerator.is_optional`: a `Union` whose arguments include
`NoneType` (the second disjunct of the source is unreachable and the
third coincides with the first under this model of union types). -/
def is_optional : Ty → Bool
  | .tUnion ms => ms.any Ty.isNoneTy
  | _ => false

/-- The object schema `{type: object, properties, required?}` built at
the end of `dataclass_to_openapi_schema` (the `required` key is present
only when the list is non-empty). -/
def mkObjSchema (props : AList Val) (required : List String) : Val :=
  .vObj ([("type", .vStr "object"), ("properties", .vObj props)] ++
    (if required.isEmpty then [] else [("required", .vArr (required.map Val.vStr))]))

mutual
/-- Embedding of `OpenApiGenerator.type_to_schema`: resolves one type descriptor to a
schema fragment, threading the registry (`known_defs`) that the Python
code mutates in place.  The record branch inlines
`dataclass_to_openapi_schema` (defined as a wrapper below): the record's
own name is written into the registry only after the field loop has
finished, first by the compiler (`root_types[cls.__name__] = schema`)
and then again by `known_defs[name] = schema`. -/
def type_to_schema : Ty → AList Val → Val × AList Val
  | .tUnion ms, d =>
    let (frags, d1) := resolveNonNone ms d
    match frags with
    | [s] => (s, d1)
    | _ => (.vObj [("oneOf", .vArr frags)], d1)
  | .tList item, d =>
    let (s, d1) := type_to_schema item d
    (.vObj [("type", .vStr "array"), ("items", s)], d1)
  | .tEnum _ values, d =>
    (.vObj [("type", .vStr "string"),
            ("enum", .vArr (values.map Val.vStr))], d)
  | .tRec name flds, d =>
    if hasKey d name then (refSchema name, d)
    else
      let (props, required, d1) := fieldsLoop flds [] [] d
      let schema := mkObjSchema props required
      (refSchema name, dset (dset d1 name schema) name schema)
  | .tStr, d => (.vObj [("type", .vStr "string")], d)
  | .tInt, d => (.vObj [("type", .vStr "integer")], d)
  | .tFloat, d => (.vObj [("type", .vStr "number")], d)
  | .tBool, d => (.vObj [("type", .vStr "boolean")], d)
  | .tNone, d => (.vObj [("type", .vStr "string")], d)
  | .tOther, d => (.vObj [("type", .vStr "string")], d)

/-- The `oneOf` list comprehension over the non-`None` union members:
each member resolved against the registry as mutated by the previous
members (the `a is not type(None)` filter is fused into the traversal,
which yields the same fragments and registry as filtering first). -/
def resolveNonNone : List Ty → AList Val → List Val × AList Val
  | [], d => ([], d)
  | a :: rest, d =>
    if a.isNoneTy then resolveNonNone rest d
    else
      let (s, d1) := type_to_schema a d
      let (ss, d2) := resolveNonNone rest d1
      (s :: ss, d2)

/-- The field loop of `dataclass_to_openapi_schema`: accumulates the
`props` dict and the `required` list, skipping internal-marker fields,
threading the registry. -/
def fieldsLoop : List Fld → AList Val → List String → AList Val →
    AList Val × List String × AList Val
  | [], props, required, d => (props, required, d)
  | .mk nm _ t :: rest, props, required, d =>
    if startsUnderscore nm then fieldsLoop rest props required d
    else
      let (prop, d1) := type_to_schema t d
      fieldsLoop rest (dset props nm prop)
        (if is_optional t then required else required ++ [nm]) d1
end

/-- Embedding of `OpenApiGenerator.dataclass_to_openapi_schema`: compiles one record
type to an object schema; the record's own name is written into the
registry only after the field loop has finished (`root_types[cls.__name__]
= schema` is the final statement of the source). -/
def dataclass_to_openapi_schema (name : String) (flds : List Fld)
    (root_types : AList Val) : Val × AList Val :=
  let (props, required, d) := fieldsLoop flds [] [] root_types
  let schema := mkObjSchema props required
  (schema, dset d name schema)

mutual
/-- Modelled from the spec (§4.1/§4.2): the same resolver, but with the
Record Compiler that, "before resolving any field, reserve[s] the
record's name in the registry".  This is the behaviour the spec claims
for `dataclass_to_openapi_schema`; it differs from the source only in
when the record's name enters the registry. -/
def resolveReserveFirst : Ty → AList Val → Val × AList Val
  | .tUnion ms, d =>
    let (frags, d1) := resolveNonNoneReserveFirst ms d
    match frags with
    | [s] => (s, d1)
    | _ => (.vObj [("oneOf", .vArr frags)], d1)
  | .tList item, d =>
    let (s, d1) := resolveReserveFirst item d
    (.vObj [("type", .vStr "array"), ("items", s)], d1)
  | .tEnum _ values, d =>
    (.vObj [("type", .vStr "string"),
            ("enum", .vArr (values.map Val.vStr))], d)
  | .tRec name flds, d =>
    if hasKey d name then (refSchema name, d)
    else
      let reserved := dset d name (.vObj [])
      let (props, required, d1) := fieldsLoopReserveFirst flds [] [] reserved
      let schema := mkObjSchema props required
      (refSchema name, dset (dset d1 name schema) name schema)
  | .tStr, d => (.vObj [("type", .vStr "string")], d)
  | .tInt, d => (.vObj [("type", .vStr "integer")], d)
  | .tFloat, d => (.vObj [("type", .vStr "number")], d)
  | .tBool, d => (.vObj [("type", .vStr "boolean")], d)
  | .tNone, d => (.vObj [("type", .vStr "string")], d)
  | .tOther, d => (.vObj [("type", .vStr "string")], d)

/-- The `oneOf` members under the reserve-first Record Compiler. -/
def resolveNonNoneReserveFirst : List Ty → AList Val → List Val × AList Val
  | [], d => ([], d)
  | a :: rest, d =>
    if a.isNoneTy then resolveNonNoneReserveFirst rest d
    else
      let (s, d1) := resolveReserveFirst a d
      let (ss, d2) := resolveNonNoneReserveFirst rest d1
      (s :: ss, d2)

/-- The field loop under the reserve-first Record Compiler. -/
def fieldsLoopReserveFirst : List Fld → AList Val → List String → AList Val →
    AList Val × List String × AList Val
  | [], props, required, d => (props, required, d)
  | .mk nm _ t :: rest, props, required, d =>
    if startsUnderscore nm then fieldsLoopReserveFirst rest props required d
    else
      let (prop, d1) := resolveReserveFirst t d
      fieldsLoopReserveFirst rest (dset props nm prop)
        (if is_optional t then required else required ++ [nm]) d1
end

/-- Modelled from the spec (§4.2): `compileRecord`, which reserves the
record's name in the registry before any field is resolved, then stores
the finished object schema under the reserved name. -/
def compileRecordReserveFirst (name : String) (flds : List Fld)
    (registry : AList Val) : Val × AList Val :=
  let reserved := dset registry name (.vObj [])
  let (props, required, d) := fieldsLoopReserveFirst flds [] [] reserved
  let schema := mkObjSchema props required
  (schema, dset d name schema)

/-! ### Observers on schema values -/

/-- The `properties` dict of an object schema (`_schema["properties"]`). -/
def schemaProps (v : Val) : AList Val :=
  match v with
  | .vObj kvs =>
    match dget kvs "properties" with
    | some (.vObj ps) => ps
    | _ => []
  | _ => []

/-- The property names of an object schema. -/
def propsKeys (v : Val) : List String := (schemaProps v).map (fun kv => kv.1)

/-- The value stored under an object schema's `required` key, when any. -/
def schemaRequired (v : Val) : Option Val :=
  match v with
  | .vObj kvs => dget kvs "required"
  | _ => none

/-- The strings listed under an object schema's `required` key. -/
def requiredStrings (v : Val) : List String :=
  match schemaRequired v with
  | some (.vArr vs) =>
    vs.filterMap (fun x => match x with | .vStr s => some s | _ => none)
  | _ => []

/-! ### The endpoint compiler (`process_services` and friends) -/

/-- A Python dataclass as the generator reflects on it: its `__name__`
and its `dataclasses.fields`. -/
structure RecCls where
  cname : String
  cfields : List Fld

/-- An endpoint descriptor (`GeneratorConfig` from `gen_types.py`); the
input/output slots are `Option` because the source guards against falsy
values at runtime despite the annotations. -/
structure Svc where
  serviceName : String
  description : String
  operationId : String
  httpMethod : String
  httpPath : String
  serviceInput : Option RecCls
  serviceOutput : Option RecCls

/-- The exceptions `process_services` and `generate` can raise.
`missingInputSchema` / `missingOutputSchema` are the two `ValueError`s
of lines 212–220 of `_tool.py`, named as in the spec's error taxonomy. -/
inductive GenErr where
  | missingInputSchema : String → GenErr
  | missingOutputSchema : String → GenErr
  | attrError : GenErr
  | keyError : String → GenErr
  | typeError : GenErr
  | nameError : GenErr
  | indexError : GenErr
  | uninitializedDocument : GenErr

/-- A `responses` dict key: Python uses both the int `200` and, in a
transient state, the output class name string. -/
inductive RKey where
  | code : Int → RKey
  | rname : String → RKey

/-- One entry of the `responses` dict: the transient `{}` assigned under
the output class name, or the final success entry whose `content` dict
is keyed by the `_contentType` field's default (`Option Dflt`: `none`
models a default-less field, whose `MISSING` sentinel Python happily
uses as a key). -/
inductive Resp where
  | emptyResp : Resp
  | success : List (Option Dflt × Val) → Resp

/-- The dict built for one method of a path item (`targetPath[httpMethod]`). -/
structure MethodInfo where
  operationId : String
  summary : String
  responses : List (RKey × Resp)
  parameters : List Val
  requestBody : Option Val

/-- The OpenAPI document under construction: `components.schemas`,
`components.parameters` and `paths` (the only parts the generator
mutates; `responses`/`examples` stay empty and `info` is fixed at
build-base time). -/
structure Doc where
  schemas : AList Val
  parameters : AList Val
  paths : AList (AList MethodInfo)

/-- Python attribute lookup on the input/output class for one name: the
class's own attribute is the field's default when it declares one; a
field without a default leaves no class attribute, so lookup falls
through to the base class (`AbstractInput` / `AbstractOutput` in
`gen_types.py`), which is modelled by `none`. -/
def classAttr (r : RecCls) (attr : String) : Option Dflt :=
  match r.cfields.find? (fun f => f.name == attr) with
  | some f => f.dflt
  | none => none

/-- The raw `getattr(inputSchema, "domainName", "_")` value; a `None`
default would make the subsequent `.capitalize()` raise. -/
def domainNameRaw (r : RecCls) : Except GenErr String :=
  match classAttr r "domainName" with
  | some (.dstr s) => .ok s
  | some .dNone => .error .attrError
  | none => .ok "_"

/-- Truthiness of `service.serviceInput.bodyInput` (line 324): the class
attribute is the field's own default when declared, else the `None`
inherited from `AbstractInput` (`gen_types.py` line 22), which is falsy. -/
def bodyInputTruthy (r : RecCls) : Bool :=
  match classAttr r "bodyInput" with
  | some (.dstr s) => s ≠ ""
  | some .dNone => false
  | none => false

/-- Path normalization: prefix a `/` unless one is present. -/
def normalizePath (p : String) : String :=
  if startsSlash p then p else "/" ++ p

/-- Embedding of `setSchemas`: merge new schemas into
`components.schemas`, rewriting keys (at every nesting level) to camel
case first when `to_camel_case_schemas` is set. -/
def setSchemas (toCamel : Bool) (S new : AList Val) : AList Val :=
  if toCamel then dupdate S (deepChangeObj snake_case_to_camel_case new)
  else dupdate S new

/-- Guarded pop: `if k in d: d.pop(k)`. -/
def popIf (d : AList Val) (k : String) : AList Val :=
  if hasKey d k then dpop d k else d

/-- The early-cleanup pops of lines 228–234: remove the entry under `k`
only when it is present and is itself a pure `$ref` fragment. -/
def cleanupRef (S : AList Val) (k : String) : AList Val :=
  match dget S k with
  | some v => if isRefFragment v then dpop S k else S
  | none => S

/-- Group-target selection (lines 244–249, 271–276 and 308–313): the
lower-cased key when it is present and not a pure reference, otherwise
the capitalized variant. -/
def groupTarget (S : AList Val) (lowerKey upperKey : String) : String :=
  match dget S lowerKey with
  | some v => if isRefFragment v then upperKey else lowerKey
  | none => upperKey

/-- The parameter object synthesized for a query group. -/
def queryParamVal (k : String) : Val :=
  .vObj [("name", .vStr k), ("in", .vStr "query"), ("required", .vBool false),
         ("schema", refSchema k)]

/-- The parameter object synthesized for one path-group property `p`
registered under schema key `k`. -/
def pathParamVal (p k : String) : Val :=
  .vObj [("name", .vStr p), ("in", .vStr "path"), ("required", .vBool true),
         ("schema", refSchema k)]

/-- A `$ref` into `#/components/parameters`. -/
def refParam (k : String) : Val :=
  .vObj [("$ref", .vStr ("#/components/parameters/" ++ k))]

/-- The state threaded through the three field-group blocks: the schemas
dict, the local `parameters` dict, and `httpMethodInfo["parameters"]`. -/
structure StepState where
  S : AList Val
  lp : AList Val
  mp : List Val

/-- The query-group block (lines 244–269). -/
def queryBlock (D : String) (st : StepState) : StepState :=
  let tgt := groupTarget st.S "queryStringParameters" "QueryStringParameters"
  match dget st.S tgt with
  | none => st
  | some v =>
    let qKey := D ++ "QueryStringParameters"
    let S1 := dset (dpop st.S tgt) qKey v
    let S2 := if hasKey S1 "queryStringParameters" then dpop S1 "queryStringParameters" else S1
    ⟨S2, dset st.lp qKey (queryParamVal qKey), st.mp ++ [refParam qKey]⟩

/-- The per-property loop of the path-group block (lines 286–302). -/
def pathPropsLoop (pKey : String) : List (String × Val) → StepState → StepState
  | [], st => st
  | (k, v) :: rest, st =>
    pathPropsLoop pKey rest
      ⟨dset st.S (pKey ++ k) v,
       dset st.lp (pKey ++ k) (pathParamVal k (pKey ++ k)),
       st.mp ++ [refParam (pKey ++ k)]⟩

/-- The path-group block (lines 271–306): renames the aggregate, explodes
its properties into individual schemas and parameters, pops the stale
lower-cased key and then the aggregate itself.  Raises when the group's
schema has no `properties` dict to iterate. -/
def pathBlock (D : String) (st : StepState) : Except GenErr StepState :=
  let tgt := groupTarget st.S "pathParameters" "PathParameters"
  match dget st.S tgt with
  | none => .ok st
  | some v =>
    let pKey := D ++ "PathParameters"
    let S1 := dset (dpop st.S tgt) pKey v
    match v with
    | .vObj kvs =>
      match dget kvs "properties" with
      | some (.vObj props) =>
        let st1 := pathPropsLoop pKey props ⟨S1, st.lp, st.mp⟩
        let S2 := if hasKey st1.S "pathParameters" then dpop st1.S "pathParameters" else st1.S
        .ok ⟨dpop S2 pKey, st1.lp, st1.mp⟩
      | some _ => .error .typeError
      | none => .error (.keyError "properties")
    | _ => .error .typeError

/-- The body-group block (lines 308–318): renames the group's schema to
the domain-qualified key and reports that key for the request body. -/
def bodyBlock (D : String) (st : StepState) : StepState × Option String :=
  let tgt := groupTarget st.S "bodyInput" "BodyInput"
  match dget st.S tgt with
  | none => (st, none)
  | some v =>
    let bKey := D ++ "BodyInput"
    let S1 := dset (dpop st.S tgt) bKey v
    let S2 := if hasKey S1 "bodyInput" then dpop S1 "bodyInput" else S1
    (⟨S2, st.lp, st.mp⟩, some bKey)

/-- Lines 324–334: the request body is attached iff the input class's
`bodyInput` attribute is truthy; when it is but no body group was
renamed, the local `bodyInputKey` was never bound (`NameError`). -/
def requestBodyOf (inp : RecCls) (bKeyOpt : Option String) : Except GenErr (Option Val) :=
  if bodyInputTruthy inp then
    match bKeyOpt with
    | some k => .ok (some (.vObj
        [("description", .vStr "Request body"),
         ("content", .vObj [("application/json", .vObj [("schema", refSchema k)])])]))
    | none => .error .nameError
  else .ok none

/-- Output processing (lines 338–373): re-compile the output record,
pop its own top-level schema, rename the `bodyOutput` record to the
domain-qualified name, read the `_contentType` default, and build
`responses[200]`.  `bodyOutput` must be a record type (other annotations
make the source fail on `__name__`/`dataclasses.fields`). -/
def outputBlock (toCamel : Bool) (D : String) (outCls : RecCls) (S : AList Val) :
    Except GenErr (AList Val × List (RKey × Resp)) :=
  let compiled := dataclass_to_openapi_schema outCls.cname outCls.cfields []
  let S1 := setSchemas toCamel S compiled.2
  if hasKey S1 outCls.cname then
    let S2 := dpop S1 outCls.cname
    match outCls.cfields.find? (fun f => f.name == "bodyOutput") with
    | none => .error .attrError
    | some f =>
      match f.ty with
      | .tRec bn bflds =>
        match dget S2 bn with
        | some bv =>
          let S3 := dset (dpop S2 bn) (D ++ bn) bv
          match bflds.find? (fun g => g.name == "_contentType") with
          | none => .error .indexError
          | some g =>
            .ok (S3, [(.code 200, .success
              [(g.dflt, .vObj [("schema", refSchema (D ++ bn))])])])
        | none => .error (.keyError bn)
      | _ => .error .attrError
  else .error (.keyError outCls.cname)

/-- Write the finished method entry into `paths` (`addPath` plus
`targetPath[httpMethod] = {...}`). -/
def commitPath (paths : AList (AList MethodInfo)) (p m : String) (mi : MethodInfo) :
    AList (AList MethodInfo) :=
  let cur := match dget paths p with | some pd => pd | none => []
  dset paths p (dset cur m mi)

/-- One iteration of the `process_services` loop over one endpoint
descriptor, faithful to the statement order of lines 188–373; the
method entry and the document updates are committed together at the
end, which is observably equal for every non-raising run. -/
def processOne (toCamel : Bool) (d : Doc) (svc : Svc) : Except GenErr Doc :=
  let httpPath := normalizePath svc.httpPath
  let method := pyLower svc.httpMethod
  match svc.serviceInput with
  | none => .error (.missingInputSchema svc.serviceName)
  | some inp =>
    match domainNameRaw inp with
    | .error e => .error e
    | .ok rawD =>
      let D := pyCapitalize rawD
      match svc.serviceOutput with
      | none => .error (.missingOutputSchema svc.serviceName)
      | some outCls =>
        let compiledIn := dataclass_to_openapi_schema inp.cname inp.cfields []
        let S1 := setSchemas toCamel d.schemas (schemaProps compiledIn.1)
        let S2 := popIf S1 "domainName"
        let S3 := cleanupRef S2 "pathPatameters"
        let S4 := cleanupRef S3 "queryStringParameters"
        let S5 := setSchemas toCamel S4 compiledIn.2
        let compiledOut := dataclass_to_openapi_schema outCls.cname outCls.cfields []
        let S6 := setSchemas toCamel S5 compiledOut.2
        let st1 := queryBlock D ⟨S6, [], []⟩
        match pathBlock D st1 with
        | .error e => .error e
        | .ok st2 =>
          let bodyRes := bodyBlock D st2
          let st3 := bodyRes.1
          let S7 := popIf st3.S inp.cname
          match requestBodyOf inp bodyRes.2 with
          | .error e => .error e
          | .ok rb =>
            let P1 := dupdate d.parameters st3.lp
            match outputBlock toCamel D outCls S7 with
            | .error e => .error e
            | .ok out =>
              let mi : MethodInfo :=
                ⟨svc.operationId, svc.description, out.2, st3.mp, rb⟩
              .ok ⟨out.1, P1, commitPath d.paths httpPath method mi⟩

/-- Embedding of `process_services`: the strictly sequential left fold
over the endpoint list; a raise aborts the whole run. -/
def process_services (toCamel : Bool) : List Svc → Doc → Except GenErr Doc
  | [], d => .ok d
  | svc :: rest, d =>
    match processOne toCamel d svc with
    | .error e => .error e
    | .ok d1 => process_services toCamel rest d1

/-! ### Serialization and the `generate` entry point -/

mutual
/-- Deterministic flow-style rendering of one value, standing for the
`yaml.dump(..., sort_keys=False)` call: key order is insertion order. -/
def valText : Val → String
  | .vStr s => "\"" ++ s ++ "\""
  | .vInt n => toString n
  | .vBool b => if b then "true" else "false"
  | .vArr l => "[" ++ listText l ++ "]"
  | .vObj kvs => "\x7b" ++ objText kvs ++ "\x7d"

/-- Rendering of list elements. -/
def listText : List Val → String
  | [] => ""
  | [v] => valText v
  | v :: rest => valText v ++ ", " ++ listText rest

/-- Rendering of dict entries. -/
def objText : List (String × Val) → String
  | [] => ""
  | [(k, v)] => k ++ ": " ++ valText v
  | (k, v) :: rest => k ++ ": " ++ valText v ++ ", " ++ objText rest
end

/-- Rendering of a `responses` key. -/
def rkeyText : RKey → String
  | .code n => toString n
  | .rname s => s

/-- Rendering of a content-type key. -/
def ctKeyText : Option Dflt → String
  | some (.dstr s) => s
  | some .dNone => "null"
  | none => "MISSING"

/-- Rendering of one `responses` entry. -/
def respText : RKey × Resp → String
  | (k, .emptyResp) => rkeyText k ++ ": \x7b\x7d"
  | (k, .success content) =>
    rkeyText k ++ ": \x7bcontent: \x7b" ++
      String.intercalate ", "
        (content.map (fun cv => ctKeyText cv.1 ++ ": " ++ valText cv.2)) ++
      "\x7d, description: \"Success\"\x7d"

/-- Rendering of one method entry, in the key insertion order of the
source (`operationId`, `summary`, `responses`, `parameters`,
`requestBody` when present). -/
def methodText (mi : MethodInfo) : String :=
  "\x7boperationId: " ++ mi.operationId ++ ", summary: \"" ++ mi.summary ++
    "\", responses: \x7b" ++ String.intercalate ", " (mi.responses.map respText) ++
    "\x7d, parameters: [" ++ String.intercalate ", " (mi.parameters.map valText) ++ "]" ++
    (match mi.requestBody with
     | some rb => ", requestBody: " ++ valText rb
     | none => "") ++ "\x7d"

/-- The generator's configuration surface: the `OpenApiGenerator`
constructor arguments plus the `build_openapi_base` info values. -/
structure GenCfg where
  openapiVersion : String
  title : String
  descriptionText : String
  infoVersion : String
  toCamel : Bool
  services : List Svc

/-- Rendering of the whole document (openapi, info, components, paths). -/
def docText (cfg : GenCfg) (d : Doc) : String :=
  "\x7bopenapi: " ++ cfg.openapiVersion ++
    ", info: \x7btitle: " ++ cfg.title ++ ", description: " ++ cfg.descriptionText ++
    ", version: " ++ cfg.infoVersion ++ "\x7d" ++
    ", components: \x7bschemas: \x7b" ++ objText d.schemas ++
    "\x7d, parameters: \x7b" ++ objText d.parameters ++
    "\x7d, responses: \x7b\x7d, examples: \x7b\x7d\x7d" ++
    ", paths: \x7b" ++
    String.intercalate ", "
      (d.paths.map (fun pv => pv.1 ++ ": \x7b" ++
        String.intercalate ", "
          (pv.2.map (fun mv => mv.1 ++ ": " ++ methodText mv.2)) ++ "\x7d")) ++
    "\x7d\x7d"

/-- The empty document shell `build_openapi_base` creates. -/
def build_openapi_base : Doc := ⟨[], [], []⟩

/-- Embedding of `generate`: fails fast when the build shell is missing,
otherwise runs `process_services` and, only on success, produces the
serialized document (the file write). -/
def generate (cfg : GenCfg) (build : Option Doc) : Except GenErr String :=
  match build with
  | none => .error .uninitializedDocument
  | some d0 =>
    match process_services cfg.toCamel cfg.services d0 with
    | .error e => .error e
    | .ok d => .ok (docText cfg d)

/-- One full compiler run as `main.py` performs it: build the base
document, then generate. -/
def fullRun (cfg : GenCfg) : Except GenErr String :=
  generate cfg (some build_openapi_base)

/-! ### Canonical-parameter shape (for the `components.parameters` merge) -/

/-- No ASCII upper-case letter occurs in the character list. -/
def upFree (l : List Char) : Prop := ∀ c ∈ l, isUpperCh c = false

/-- The shape `str.capitalize` guarantees: empty, or a head character
followed by upper-free characters. -/
def capShaped (s : String) : Prop :=
  s.data = [] ∨ ∃ c w, s.data = c :: w ∧ upFree w

/-- The schema/parameter key of a query group for domain `D`. -/
def qsKeyOf (D : String) : String := D ++ "QueryStringParameters"

/-- The schema/parameter key of one path-group property `p` for domain `D`. -/
def ppKeyOf (D p : String) : String := D ++ "PathParameters" ++ p

/-- A parameter entry the endpoint compiler can synthesize: its value is
fully determined by its key (and, for a path parameter, the unique
property suffix of the key). -/
def canonParam (k : String) (v : Val) : Prop :=
  (∃ D, capShaped D ∧ k = qsKeyOf D ∧ v = queryParamVal k) ∨
  (∃ D p, capShaped D ∧ k = ppKeyOf D p ∧ v = pathParamVal p k)

/-- Every entry of a parameters dict is canonical. -/
def paramsCanon (P : AList Val) : Prop := ∀ kv ∈ P, canonParam kv.1 kv.2

/-- Split a character list at its first upper-case character. -/
def splitU : List Char → List Char × List Char
  | [] => ([], [])
  | c :: rest =>
    if isUpperCh c then ([], c :: rest)
    else ((splitU rest).1.cons c, (splitU rest).2)

/-! ### Concrete endpoint data (from `example_service_endpoint.py`) -/

/-- The `QueryStringParametersUser` record. -/
def qspUser : Ty := .tRec "QueryStringParametersUser" [.mk "user" none .tStr]

/-- The `QueryStringParametersOrganization` record. -/
def qspOrg : Ty :=
  .tRec "QueryStringParametersOrganization" [.mk "organizationName" none .tStr]

/-- The `PathParameters` record `{userId: string}`. -/
def ppCls : Ty := .tRec "PathParameters" [.mk "userId" none .tStr]

/-- The `OutputBody` record (its `response: dict` annotation matches no
resolver rule, and `_contentType` defaults to `"application/json"`). -/
def outputBodyFields : List Fld :=
  [.mk "code" none .tInt, .mk "message" none .tStr, .mk "response" none .tOther,
   .mk "_contentType" (some (.dstr "application/json")) .tStr]

/-- The `RequestSchema` input class: `domainName` defaulting to `"_"`, a
query union of two record shapes, and a `PathParameters` group. -/
def requestSchema : RecCls :=
  ⟨"RequestSchema",
   [.mk "domainName" (some (.dstr "_")) .tStr,
    .mk "queryStringParameters" none (.tUnion [qspUser, qspOrg]),
    .mk "pathParameters" none ppCls]⟩

/-- The `ResponseSchema` output class. -/
def responseSchema : RecCls :=
  ⟨"ResponseSchema", [.mk "bodyOutput" none (.tRec "OutputBody" outputBodyFields)]⟩

/-- The `endpoint_config` descriptor of `example_service_endpoint.py`. -/
def endpoint_config : Svc :=
  ⟨"MyService", "My service description", "myEndpoint", "GET", "world/{userId}",
   some requestSchema, some responseSchema⟩

/-- The document produced for the example endpoint (camel-casing on, as
by default). -/
def exampleDoc : Except GenErr Doc :=
  process_services true [endpoint_config] build_openapi_base

/-- The method entry of the document at a path/method pair. -/
def pathMethod (d : Doc) (p m : String) : Option MethodInfo :=
  match dget d.paths p with
  | some pd => dget pd m
  | none => none

/-- The `schema` under `responses[code].content[ct]` of a method entry. -/
def respContentSchema (mi : MethodInfo) (code : Int) (ct : String) : Option Val :=
  match mi.responses.find? (fun r => match r.1 with | .code n => n == code | _ => false) with
  | some (_, .success content) =>
    match content.find? (fun cv => match cv.1 with
      | some (.dstr s) => s == ct
      | _ => false) with
    | some (_, .vObj kvs) => dget kvs "schema"
    | _ => none
  | _ => none

/-- The keys of a dict, in order. -/
def keysOf (d : AList α) : List String := d.map (fun kv => kv.1)

/-- A record `A` whose field `x` is a nested occurrence of a record also
named `A`, which in turn contains a record `C`: the probe separating the
source compiler from the reserve-first one (reserve-first never visits
the nested occurrence, so it never registers `C`). -/
def cyclicRecordFields : List Fld :=
  [.mk "x" none (.tRec "A" [.mk "z" none (.tRec "C" [])])]

/-- Fields `{a: string, b: Optional[string]}`. -/
def abFields : List Fld :=
  [.mk "a" none .tStr, .mk "b" none (.tUnion [.tStr, .tNone])]

/-- Fields that are all optional. -/
def allOptFields : List Fld :=
  [.mk "a" none (.tUnion [.tStr, .tNone]), .mk "b" none (.tUnion [.tInt, .tNone])]

/-- One non-optional field with an underscore-separated name. -/
def snakeFields : List Fld := [.mk "user_name" none .tStr]

/-- An input class declaring `bodyInput` as a field without a default
(its type a record named exactly `BodyInput`), so the class attribute is
the `None` inherited from `AbstractInput`. -/
def inputBodyDeclared : RecCls :=
  ⟨"InputBodyDeclared",
   [.mk "bodyInput" none (.tRec "BodyInput" [.mk "q" none .tStr])]⟩

/-- An endpoint whose input declares a default-less `bodyInput` field. -/
def svcBodyDeclared : Svc :=
  ⟨"BodySvc", "d", "opB", "POST", "/body", some inputBodyDeclared, some responseSchema⟩

/-- An input class whose query and path groups are forwarding references
to records not named `QueryStringParameters`/`PathParameters`. -/
def inputOddGroups : RecCls :=
  ⟨"InputOddGroups",
   [.mk "queryStringParameters" none (.tRec "MyQuery" [.mk "q" none .tStr]),
    .mk "pathParameters" none (.tRec "MyPathParams" [.mk "userId" none .tStr])]⟩

/-- An endpoint exercising the skipped-group behaviour. -/
def svcOddGroups : Svc :=
  ⟨"OddSvc", "d", "opO", "GET", "/odd", some inputOddGroups, some responseSchema⟩

/-- An input class whose `domainName` field defaults to `None`. -/
def inputNoneDomain : RecCls :=
  ⟨"InputNoneDomain", [.mk "domainName" (some .dNone) .tStr]⟩

/-- An endpoint with a `None`-valued `domainName` default and a missing
output type. -/
def svcNoneDomainNoOutput : Svc :=
  ⟨"NoneSvc", "d", "opN", "GET", "/n", some inputNoneDomain, none⟩

/-- The configuration of `main.py` for the example endpoint. -/
def exampleCfg : GenCfg :=
  ⟨"3.1.0", "Service", "Description", "1.0", true, [endpoint_config]⟩

/-- The concrete document of the example run (defaulting to the empty
shell on error, which the run does not hit). -/
def exDocV : Doc :=
  match exampleDoc with
  | .ok d => d
  | .error _ => build_openapi_base

/-- A second pass of the example endpoint over the already-built
document. -/
def exampleDoc2 : Except GenErr Doc :=
  process_services true [endpoint_config] exDocV

/-- The concrete document after the second pass. -/
def exDocV2 : Doc :=
  match exampleDoc2 with
  | .ok d => d
  | .error _ => build_openapi_base

/-- The concrete document of the declared-body-without-default run. -/
def svcBodyDoc : Doc :=
  match processOne true build_openapi_base svcBodyDeclared with
  | .ok d => d
  | .error _ => build_openapi_base

/-! ## Dictionary lemmas -/

/-- A key that is absent is never found. -/
theorem find_none_of_not_hasKey (d : AList α) (k : String) (h : hasKey d k = false) :
    d.find? (fun kv => kv.1 == k) = none := by
  rw [List.find?_eq_none]
  intro kv hkv
  simp only [hasKey, List.any_eq_false] at h
  simpa using h kv hkv

/-- Unfolding lookup over a cons cell. -/
theorem dget_cons (a : String × α) (rest : AList α) (k : String) :
    dget (a :: rest) k = if (a.1 == k) = true then some a.2 else dget rest k := by
  unfold dget
  rw [List.find?_cons]
  by_cases h : (a.1 == k) = true
  · simp [h]
  · simp only [Bool.not_eq_true] at h
    simp [h]

/-- Unfolding membership over a cons cell. -/
theorem hasKey_cons (a : String × α) (rest : AList α) (k : String) :
    hasKey (a :: rest) k = ((a.1 == k) || hasKey rest k) := by
  simp [hasKey]

/-- In-place update makes lookup of the key return the new value. -/
theorem dget_map_set (d : AList α) (k : String) (v : α) (h : hasKey d k = true) :
    dget (d.map (fun kv => if kv.1 == k then (k, v) else kv)) k = some v := by
  induction d with
  | nil => simp [hasKey] at h
  | cons a rest ih =>
    rw [List.map_cons, dget_cons]
    by_cases ha : (a.1 == k) = true
    · have hae : a.1 = k := by simpa using ha
      simp [hae]
    · have ha' : (a.1 == k) = false := by
        simp only [Bool.not_eq_true] at ha
        exact ha
      have hr : hasKey rest k = true := by
        rw [hasKey_cons, ha'] at h
        simpa using h
      simp only [ha', Bool.false_eq_true, if_false]
      exact ih hr

/-- In-place update leaves lookups of other keys unchanged. -/
theorem dget_map_set_ne (d : AList α) (k k' : String) (v : α) (h : k' ≠ k) :
    dget (d.map (fun kv => if kv.1 == k then (k, v) else kv)) k' = dget d k' := by
  induction d with
  | nil => rfl
  | cons a rest ih =>
    rw [List.map_cons, dget_cons, dget_cons]
    by_cases ha : (a.1 == k) = true
    · have h1 : (((k, v) : String × α).1 == k') = false := by
        simp only [beq_eq_false_iff_ne, ne_eq]
        exact fun hh => h hh.symm
      have h2 : (a.1 == k') = false := by
        simp only [beq_iff_eq] at ha
        simp only [beq_eq_false_iff_ne, ne_eq, ha]
        exact fun hh => h hh.symm
      simp only [if_pos ha, h1, h2, Bool.false_eq_true, if_false]
      exact ih
    · have ha' : (a.1 == k) = false := by
        simp only [Bool.not_eq_true] at ha
        exact ha
      simp only [ha', Bool.false_eq_true, if_false]
      by_cases hb : (a.1 == k') = true
      · simp [hb]
      · have hb' : (a.1 == k') = false := by
          simp only [Bool.not_eq_true] at hb
          exact hb
        simp only [hb', Bool.false_eq_true, if_false]
        exact ih

/-- Setting a key makes lookup return the new value. -/
theorem dget_dset_self (d : AList α) (k : String) (v : α) :
    dget (dset d k v) k = some v := by
  unfold dset
  by_cases h : hasKey d k
  · rw [if_pos h]
    exact dget_map_set d k v h
  · rw [if_neg h]
    simp only [Bool.not_eq_true] at h
    unfold dget
    rw [List.find?_append, find_none_of_not_hasKey d k h]
    rw [List.find?_cons_of_pos]
    · rfl
    · simp

/-- Setting one key leaves lookups of other keys unchanged. -/
theorem dget_dset_ne (d : AList α) (k k' : String) (v : α) (h : k' ≠ k) :
    dget (dset d k v) k' = dget d k' := by
  unfold dset
  by_cases hk : hasKey d k
  · rw [if_pos hk]
    exact dget_map_set_ne d k k' v h
  · rw [if_neg hk]
    have h1 : (((k, v) : String × α).1 == k') = false := by
      simp only [beq_eq_false_iff_ne, ne_eq]
      exact fun hh => h hh.symm
    unfold dget
    rw [List.find?_append]
    simp [List.find?_cons, h1]

/-- Every entry of `dset d k v` is an old entry or the new one. -/
theorem mem_dset (d : AList α) (k : String) (v : α) (x : String × α)
    (h : x ∈ dset d k v) : x ∈ d ∨ x = (k, v) := by
  unfold dset at h
  by_cases hk : hasKey d k
  · rw [if_pos hk] at h
    rcases List.mem_map.mp h with ⟨y, hy, hxy⟩
    by_cases hy1 : (y.1 == k) = true
    · right
      rw [if_pos hy1] at hxy
      exact hxy.symm
    · left
      rw [if_neg hy1] at hxy
      exact hxy ▸ hy
  · rw [if_neg hk] at h
    rcases List.mem_append.mp h with h1 | h1
    · exact Or.inl h1
    · exact Or.inr (List.mem_singleton.mp h1)

/-- A successful lookup names a member entry. -/
theorem mem_of_dget (d : AList α) (k : String) (v : α) (h : dget d k = some v) :
    (k, v) ∈ d := by
  unfold dget at h
  cases hf : d.find? (fun kv => kv.1 == k) with
  | none => rw [hf] at h; simp at h
  | some kv =>
    rw [hf] at h
    have hmem := List.mem_of_find?_eq_some hf
    have hp := List.find?_some hf
    simp only [beq_iff_eq] at hp
    simp only [Option.map_some'] at h
    cases kv with
    | mk a b =>
      simp only at hp h
      have hb : b = v := by simpa using h
      rw [hp, hb] at hmem
      exact hmem

/-! ## C7: unrecognized descriptors fall back to a string schema -/

/-- C7: a type descriptor matching none of the union, list, enum, record
or primitive rules (modelled by `tOther`, e.g. Python's `dict`, and by a
bare `NoneType`) resolves to the string schema `{type: string}` with the
registry unchanged; the resolver is a total function, so unrecognized
field types never raise. -/
theorem typeResolver_string_fallback (d : AList Val) :
    type_to_schema .tOther d = (.vObj [("type", .vStr "string")], d) ∧
    type_to_schema .tNone d = (.vObj [("type", .vStr "string")], d) :=
  ⟨rfl, rfl⟩

/-! ## C1: when is the record's name written into the registry? -/

/-- C1 (counterexample): compiling record `A` whose field nests another
record named `A` containing a record `C`.  The source compiler
(`dataclass_to_openapi_schema`) recurses into the nested occurrence and
registers `C`; the reserve-first compiler the claim describes finds the
reserved name `A` and returns a reference without recursing, so `C` is
never registered.  Hence the two disagree and the claimed reservation
does not happen in the source. -/
theorem recordCompiler_not_reserveFirst :
    hasKey (dataclass_to_openapi_schema "A" cyclicRecordFields []).2 "C" = true ∧
    hasKey (compileRecordReserveFirst "A" cyclicRecordFields []).2 "C" = false ∧
    dataclass_to_openapi_schema "A" cyclicRecordFields [] ≠
      compileRecordReserveFirst "A" cyclicRecordFields [] := by
  refine ⟨rfl, rfl, fun h => ?_⟩
  have h2 := congrArg (fun p => hasKey p.2 "C") h
  simp only at h2
  rw [show hasKey (dataclass_to_openapi_schema "A" cyclicRecordFields []).2 "C" = true
        from rfl,
      show hasKey (compileRecordReserveFirst "A" cyclicRecordFields []).2 "C" = false
        from rfl] at h2
  exact Bool.noConfusion h2

/-- C1 (amended): the registry check guarding termination sits at the
entry of the record rule of `type_to_schema` — a name already registered
returns a `$ref` with the registry unchanged — but the record's own name
is written only after its fields are resolved
(`root_types[cls.__name__] = schema` is the compiler's final statement),
so a nested occurrence of the same record name inside its own fields is
compiled again rather than short-circuited (witnessed by the registered
`C`); termination holds because type descriptors are finite trees, not
because of reservation. -/
theorem recordName_written_after_fields :
    (∀ (name : String) (flds : List Fld) (d : AList Val), hasKey d name = true →
        type_to_schema (.tRec name flds) d = (refSchema name, d)) ∧
    (∀ (name : String) (flds : List Fld) (d : AList Val),
        dget (dataclass_to_openapi_schema name flds d).2 name =
          some (dataclass_to_openapi_schema name flds d).1) ∧
    hasKey (dataclass_to_openapi_schema "A" cyclicRecordFields []).2 "C" = true := by
  refine ⟨?_, ?_, rfl⟩
  · intro name flds d h
    rw [type_to_schema]
    rw [if_pos h]
  · intro name flds d
    unfold dataclass_to_openapi_schema
    exact dget_dset_self _ _ _

/-- Witness for the amended C1 theorem at concrete inputs. -/
theorem recordName_written_after_fields_witness :
    type_to_schema (.tRec "A" []) [("A", .vObj [])] =
      (refSchema "A", [("A", .vObj [])]) :=
  recordName_written_after_fields.1 "A" [] [("A", .vObj [])] rfl

/-! ## C4: required-field inference -/

/-- The `required` accumulator of the field loop collects exactly the
names of the non-internal, non-optional fields, in order, after the
incoming accumulator. -/
theorem fieldsLoop_required (flds : List Fld) (props : AList Val)
    (req : List String) (d : AList Val) :
    (fieldsLoop flds props req d).2.1 =
      req ++ (flds.filter
        (fun f => !startsUnderscore f.name && !is_optional f.ty)).map Fld.name := by
  induction flds generalizing props req d with
  | nil => simp [fieldsLoop]
  | cons f rest ih =>
    cases f with
    | mk nm df t =>
      by_cases h : startsUnderscore nm = true
      · rw [fieldsLoop, if_pos h, ih]
        simp [List.filter_cons, Fld.name, Fld.ty, h]
      · rw [fieldsLoop, if_neg h]
        rcases hts : type_to_schema t d with ⟨prop, d1⟩
        dsimp only
        have h' : startsUnderscore nm = false := by
          simp only [Bool.not_eq_true] at h
          exact h
        by_cases hop : is_optional t = true
        · rw [if_pos hop, ih]
          simp [List.filter_cons, Fld.name, Fld.ty, h', hop]
        · have hop' : is_optional t = false := by
            simp only [Bool.not_eq_true] at hop
            exact hop
          rw [if_neg hop, ih]
          simp [List.filter_cons, Fld.name, Fld.ty, h', hop']

/-- The `required` key of the built object schema: absent when the list
is empty, otherwise the string array of the list. -/
theorem schemaRequired_mkObjSchema (props : AList Val) (req : List String) :
    schemaRequired (mkObjSchema props req) =
      if req.isEmpty then none else some (.vArr (req.map Val.vStr)) := by
  by_cases h : req.isEmpty
  · simp [mkObjSchema, schemaRequired, h, dget]
  · simp [mkObjSchema, schemaRequired, h, dget]

/-- C4: the compiled object schema's `required` list holds exactly the
names of the non-internal fields whose declared type is not
Optional/nullable, in declared order; for `{a: string, b:
Optional[string]}` it is exactly `["a"]`, and when every field is
optional the `required` key is absent entirely. -/
theorem required_list_exact :
    (∀ (name : String) (flds : List Fld) (d : AList Val),
      schemaRequired (dataclass_to_openapi_schema name flds d).1 =
        (if ((flds.filter (fun f => !startsUnderscore f.name &&
              !is_optional f.ty)).map Fld.name).isEmpty
         then none
         else some (.vArr (((flds.filter (fun f => !startsUnderscore f.name &&
              !is_optional f.ty)).map Fld.name).map Val.vStr)))) ∧
    requiredStrings (dataclass_to_openapi_schema "R" abFields []).1 = ["a"] ∧
    schemaRequired (dataclass_to_openapi_schema "R" allOptFields []).1 = none := by
  refine ⟨?_, rfl, rfl⟩
  intro name flds d
  have h1 := fieldsLoop_required flds [] [] d
  rcases hfl : fieldsLoop flds [] [] d with ⟨props, req, d2⟩
  rw [hfl] at h1
  simp only [List.nil_append] at h1
  unfold dataclass_to_openapi_schema
  rw [hfl]
  simp only []
  rw [schemaRequired_mkObjSchema, h1]

/-! ## C3: the end-to-end example scenario -/

/-- C3: for the example endpoint (`GET world/{userId}`, domain `_`, a
query union of two record shapes, a `{userId: string}` path group, no
body input), `process_services` yields the path key `/world/{userId}`;
`get.parameters` holds exactly one query-parameter reference and one
path-parameter reference (witnessed in `components.parameters` by the
synthesized objects with `in: query` and `in: path`); no `requestBody`;
and `responses[200].content["application/json"].schema` is a `$ref` to
the domain-qualified output body schema `_OutputBody`. -/
theorem endToEnd_example_scenario :
    (match exampleDoc with
     | .ok d =>
       hasKey d.paths "/world/{userId}" = true ∧
       (pathMethod d "/world/{userId}" "get").map MethodInfo.parameters =
         some [refParam "_QueryStringParameters", refParam "_PathParametersuserId"] ∧
       dget d.parameters "_QueryStringParameters" =
         some (queryParamVal "_QueryStringParameters") ∧
       dget d.parameters "_PathParametersuserId" =
         some (pathParamVal "userId" "_PathParametersuserId") ∧
       (pathMethod d "/world/{userId}" "get").map MethodInfo.requestBody = some none ∧
       (pathMethod d "/world/{userId}" "get").bind
         (fun mi => respContentSchema mi 200 "application/json") =
         some (refSchema "_OutputBody")
     | .error _ => False) :=
  ⟨rfl, rfl, rfl, rfl, rfl, rfl⟩

/-! ## C8: determinism of the compiler -/

/-- C8: the compiler is a pure function of its configuration — two runs
on identical endpoint-descriptor input produce byte-identical serialized
documents. -/
theorem generator_deterministic (cfg1 cfg2 : GenCfg) (h : cfg1 = cfg2) :
    fullRun cfg1 = fullRun cfg2 := by rw [h]

/-- Witness: the example configuration run twice. -/
theorem generator_deterministic_witness :
    fullRun exampleCfg = fullRun exampleCfg :=
  generator_deterministic exampleCfg exampleCfg rfl

/-! ## C5: missing input/output schema errors -/

/-- A raise in the middle of the endpoint list aborts the whole fold. -/
theorem process_services_abort (toCamel : Bool) (pre post : List Svc) (svc : Svc)
    (d d1 : Doc) (e : GenErr) (hpre : process_services toCamel pre d = .ok d1)
    (hsvc : processOne toCamel d1 svc = .error e) :
    process_services toCamel (pre ++ svc :: post) d = .error e := by
  induction pre generalizing d with
  | nil =>
    simp only [process_services] at hpre
    cases hpre
    simp [process_services, hsvc]
  | cons s rest ih =>
    rw [List.cons_append]
    cases hp : processOne toCamel d s with
    | error e2 =>
      rw [process_services, hp] at hpre
      cases hpre
    | ok d2 =>
      rw [process_services, hp] at hpre
      rw [process_services, hp]
      exact ih d2 hpre

/-- C5 (counterexample): an endpoint whose input class defaults
`domainName` to `None` and whose output type is absent fails with the
`AttributeError` from `getattr(...).capitalize()` (line 215), which runs
before the output check of line 219 — not with `MissingOutputSchema`. -/
theorem missingOutput_not_first_counterexample :
    svcNoneDomainNoOutput.serviceOutput = none ∧
    processOne true build_openapi_base svcNoneDomainNoOutput = .error .attrError ∧
    ¬ processOne true build_openapi_base svcNoneDomainNoOutput =
        .error (.missingOutputSchema svcNoneDomainNoOutput.serviceName) := by
  refine ⟨rfl, rfl, fun h => ?_⟩
  rw [show processOne true build_openapi_base svcNoneDomainNoOutput =
        .error .attrError from rfl] at h
  injection h with h2
  exact GenErr.noConfusion h2

/-- C5 (amended): a missing input type always fails with
`MissingInputSchema`; a missing output type fails with
`MissingOutputSchema` provided the `domainName` attribute lookup (which
the source runs between the two checks) does not itself raise; either
failure aborts the whole run, and `generate` writes no output document
on a failed run. -/
theorem missing_schema_errors :
    (∀ (toCamel : Bool) (d : Doc) (svc : Svc), svc.serviceInput = none →
      processOne toCamel d svc = .error (.missingInputSchema svc.serviceName)) ∧
    (∀ (toCamel : Bool) (d : Doc) (svc : Svc) (inp : RecCls) (raw : String),
      svc.serviceInput = some inp → domainNameRaw inp = .ok raw →
      svc.serviceOutput = none →
      processOne toCamel d svc = .error (.missingOutputSchema svc.serviceName)) ∧
    (∀ (toCamel : Bool) (pre post : List Svc) (svc : Svc) (d d1 : Doc) (e : GenErr),
      process_services toCamel pre d = .ok d1 →
      processOne toCamel d1 svc = .error e →
      process_services toCamel (pre ++ svc :: post) d = .error e) ∧
    (∀ (cfg : GenCfg) (d0 : Doc) (e : GenErr),
      process_services cfg.toCamel cfg.services d0 = .error e →
      generate cfg (some d0) = .error e) := by
  refine ⟨?_, ?_, ?_, ?_⟩
  · intro toCamel d svc h
    simp [processOne, h]
  · intro toCamel d svc inp raw h1 h2 h3
    simp [processOne, h1, h2, h3]
  · intro toCamel pre post svc d d1 e h1 h2
    exact process_services_abort toCamel pre post svc d d1 e h1 h2
  · intro cfg d0 e h
    simp [generate, h]

/-- Witness for C5 at concrete endpoints. -/
theorem missing_schema_errors_witness :
    processOne true build_openapi_base
      ⟨"W", "d", "op", "GET", "/w", none, none⟩ =
      .error (.missingInputSchema "W") ∧
    processOne true build_openapi_base
      ⟨"W2", "d", "op", "GET", "/w", some requestSchema, none⟩ =
      .error (.missingOutputSchema "W2") :=
  ⟨missing_schema_errors.1 true build_openapi_base _ rfl,
   missing_schema_errors.2.1 true build_openapi_base _ requestSchema "_" rfl rfl rfl⟩

/-! ## C10: casing tolerance of the field-group keys -/

/-- C10: a field group whose lower-cased key maps to a pure `$ref`
fragment makes the target selection fall back to the exact capitalized
key, so the group is processed only when the registry holds a schema
under that capitalized name (a record class named exactly so); a group
whose target is absent is skipped silently by all three blocks; and for
the concrete skipped endpoint the stale `pathParameters` `$ref` entry
survives in the registry (the early cleanup checks the misspelled key
`pathPatameters`) while the query group's stale entry was popped by the
correctly-spelled early cleanup, and no parameter objects are
synthesized at all. -/
theorem group_key_casing_fallback :
    (∀ (S : AList Val) (lk uk : String) (v : Val),
      dget S lk = some v → isRefFragment v = true → groupTarget S lk uk = uk) ∧
    (∀ (D : String) (st : StepState),
      dget st.S (groupTarget st.S "queryStringParameters" "QueryStringParameters") = none →
      queryBlock D st = st) ∧
    (∀ (D : String) (st : StepState),
      dget st.S (groupTarget st.S "pathParameters" "PathParameters") = none →
      pathBlock D st = .ok st) ∧
    (∀ (D : String) (st : StepState),
      dget st.S (groupTarget st.S "bodyInput" "BodyInput") = none →
      bodyBlock D st = (st, none)) ∧
    (match processOne true build_openapi_base svcOddGroups with
     | .ok d =>
       dget d.schemas "pathParameters" = some (refSchema "MyPathParams") ∧
       hasKey d.schemas "queryStringParameters" = false ∧
       d.parameters = [] ∧
       (pathMethod d "/odd" "get").map MethodInfo.parameters = some []
     | .error _ => False) := by
  refine ⟨?_, ?_, ?_, ?_, rfl, rfl, rfl, rfl⟩
  · intro S lk uk v h1 h2
    unfold groupTarget
    rw [h1]
    dsimp only
    rw [if_pos h2]
  · intro D st h
    unfold queryBlock
    simp only [h]
  · intro D st h
    unfold pathBlock
    simp only [h]
  · intro D st h
    unfold bodyBlock
    simp only [h]

/-- Witness for C10's target selection at a concrete registry. -/
theorem group_key_casing_fallback_witness :
    groupTarget [("pathParameters", refSchema "X")] "pathParameters" "PathParameters" =
      "PathParameters" :=
  group_key_casing_fallback.1 _ _ _ (refSchema "X") rfl rfl

/-! ## Character and casing lemmas -/

/-- Below the surrogate range, `Char.ofNat` round-trips through `toNat`. -/
theorem toNat_ofNat_of_lt (n : Nat) (h : n < 55296) : (Char.ofNat n).toNat = n := by
  unfold Char.ofNat
  rw [dif_pos (show n.isValidChar from Or.inl h)]
  rfl

/-- Upper-casing a character never produces an underscore unless the
character already was one. -/
theorem upperCh_underscore (c : Char) (h : upperCh c = '_') : c = '_' := by
  unfold upperCh at h
  by_cases hl : isLowerCh c = true
  · exfalso
    rw [if_pos hl] at h
    unfold isLowerCh at hl
    simp only [Bool.and_eq_true, decide_eq_true_eq] at hl
    have hlt : c.toNat - 32 < 55296 := by omega
    have h2 := congrArg Char.toNat h
    rw [toNat_ofNat_of_lt _ hlt] at h2
    rw [show ('_' : Char).toNat = 95 from rfl] at h2
    omega
  · rw [if_neg hl] at h
    exact h

/-- Lower-casing always yields a non-upper-case character. -/
theorem lowerCh_not_upper (c : Char) : isUpperCh (lowerCh c) = false := by
  unfold lowerCh
  by_cases h : isUpperCh c = true
  · rw [if_pos h]
    unfold isUpperCh at h ⊢
    simp only [Bool.and_eq_true, decide_eq_true_eq] at h
    have hlt : c.toNat + 32 < 55296 := by omega
    rw [toNat_ofNat_of_lt _ hlt]
    have h2 : ¬(c.toNat + 32 ≤ 90) := by omega
    simp [h2]
  · rw [if_neg h]
    simpa using h

/-- No part produced by splitting on underscores contains an underscore. -/
theorem splitUnderscoreL_no_us (l : List Char) :
    ∀ p ∈ splitUnderscoreL l, '_' ∉ p := by
  induction l with
  | nil =>
    intro p hp
    simp only [splitUnderscoreL, List.mem_singleton] at hp
    subst hp
    simp
  | cons c rest ih =>
    intro p hp
    by_cases hc : c = '_'
    · rw [splitUnderscoreL, if_pos hc] at hp
      rcases List.mem_cons.mp hp with h | h
      · subst h; simp
      · exact ih p h
    · rw [splitUnderscoreL, if_neg hc] at hp
      cases hsp : splitUnderscoreL rest with
      | nil =>
        rw [hsp] at hp
        rcases List.mem_singleton.mp hp with rfl
        intro hmem
        rcases List.mem_singleton.mp hmem with rfl
        exact hc rfl
      | cons q qs =>
        rw [hsp] at hp
        rcases List.mem_cons.mp hp with h | h
        · subst h
          intro hmem
          rcases List.mem_cons.mp hmem with h2 | h2
          · exact hc h2.symm
          · exact ih q (hsp ▸ List.mem_cons_self q qs) h2
        · exact ih p (hsp ▸ List.mem_cons_of_mem q h)

/-- Joining underscore-free parts (with optional medial capitalization)
stays underscore-free. -/
theorem foldr_parts_no_us (parts : List (Nat × List Char))
    (h : ∀ pi ∈ parts, '_' ∉ pi.2) :
    '_' ∉ parts.foldr
      (fun pi acc => (if pi.1 = 0 then pi.2 else capHead pi.2) ++ acc) [] := by
  induction parts with
  | nil => simp
  | cons a rest ih =>
    simp only [List.foldr_cons, List.mem_append]
    rintro (hmem | hmem)
    · have ha := h a (List.mem_cons_self a rest)
      by_cases h0 : a.1 = 0
      · rw [if_pos h0] at hmem
        exact ha hmem
      · rw [if_neg h0] at hmem
        cases ha2 : a.2 with
        | nil =>
          rw [ha2] at hmem
          simp [capHead] at hmem
        | cons c cs =>
          rw [ha2] at hmem
          simp only [capHead, List.mem_cons] at hmem
          rcases hmem with h2 | h2
          · have hc := upperCh_underscore c h2.symm
            exact ha (ha2 ▸ (hc ▸ List.mem_cons_self c cs))
          · exact ha (ha2 ▸ List.mem_cons_of_mem c h2)
    · exact ih (fun pi hpi => h pi (List.mem_cons_of_mem a hpi)) hmem

/-- Second components of `enumFrom` entries are list members. -/
theorem snd_mem_of_mem_enumFrom {α : Type} {l : List α} {n : Nat} {ip : Nat × α}
    (h : ip ∈ l.enumFrom n) : ip.2 ∈ l := by
  induction l generalizing n with
  | nil => simp [List.enumFrom] at h
  | cons a rest ih =>
    rw [List.enumFrom] at h
    rcases List.mem_cons.mp h with h1 | h1
    · subst h1
      exact List.mem_cons_self a rest
    · exact List.mem_cons_of_mem a (ih h1)

/-- The camel-cased form of any string contains no underscore. -/
theorem snakeToCamelL_no_us (l : List Char) : '_' ∉ snakeToCamelL l := by
  unfold snakeToCamelL
  apply foldr_parts_no_us
  intro pi hpi
  have h1 := (List.mem_filter.mp hpi).1
  have h2 : pi.2 ∈ splitUnderscoreL l := snd_mem_of_mem_enumFrom (by simpa [List.enum] using h1)
  exact splitUnderscoreL_no_us l pi.2 h2

/-- A string containing an underscore is never a camel-cased output. -/
theorem us_string_ne_camel (s x : String) (h : '_' ∈ s.data) :
    s ≠ snake_case_to_camel_case x := by
  intro he
  have h2 := snakeToCamelL_no_us x.data
  rw [he] at h
  exact h2 h

/-! ## C6: key-casing transform vs the required list -/

/-- The transform leaves string list elements unchanged. -/
theorem deepChangeList_strings (f : String → String) (ss : List String) :
    deepChangeList f (ss.map Val.vStr) = ss.map Val.vStr := by
  induction ss with
  | nil => rfl
  | cons a rest ih => simp [deepChangeList, deepChange, ih]

/-- The transform maps every dict key with `f`. -/
theorem keysOf_deepChangeObj (f : String → String) (kvs : List (String × Val)) :
    (deepChangeObj f kvs).map (fun kv => kv.1) =
      (kvs.map (fun kv => kv.1)).map f := by
  induction kvs with
  | nil => rfl
  | cons kv rest ih =>
    cases kv with
    | mk k v => simp only [deepChangeObj, List.map_cons, ih]

/-- In-place update does not change the key sequence. -/
theorem keysOf_map_set (d : AList α) (k0 : String) (v : α) :
    keysOf (d.map (fun kv => if kv.1 == k0 then (k0, v) else kv)) = keysOf d := by
  unfold keysOf
  rw [List.map_map]
  apply List.map_congr_left
  intro kv _
  by_cases h : (kv.1 == k0) = true
  · have h2 : kv.1 = k0 := by simpa using h
    simp [h2]
  · have h2 : ¬(kv.1 = k0) := by simpa using h
    simp [h2]

/-- Key membership after a dict assignment. -/
theorem mem_keysOf_dset (d : AList α) (k0 k : String) (v : α) :
    k ∈ keysOf (dset d k0 v) ↔ k ∈ keysOf d ∨ k = k0 := by
  unfold dset
  by_cases h : hasKey d k0
  · rw [if_pos h, keysOf_map_set]
    constructor
    · exact fun hk => Or.inl hk
    · rintro (hk | rfl)
      · exact hk
      · unfold hasKey at h
        rcases List.any_eq_true.mp h with ⟨kv, hkv, hkv2⟩
        have : kv.1 = k := by simpa using hkv2
        exact this ▸ List.mem_map.mpr ⟨kv, hkv, rfl⟩
  · rw [if_neg h]
    unfold keysOf
    rw [List.map_append]
    simp [List.mem_append]

/-- Property-key membership for the compiled record's field loop. -/
theorem fieldsLoop_props_mem (flds : List Fld) (props : AList Val)
    (req : List String) (d : AList Val) (k : String) :
    k ∈ keysOf (fieldsLoop flds props req d).1 ↔
      k ∈ keysOf props ∨ ∃ f ∈ flds, startsUnderscore f.name = false ∧ f.name = k := by
  induction flds generalizing props req d with
  | nil => simp [fieldsLoop]
  | cons f rest ih =>
    cases f with
    | mk nm df t =>
      by_cases h : startsUnderscore nm = true
      · rw [fieldsLoop, if_pos h, ih]
        constructor
        · rintro (hk | ⟨g, hg, hgi, hgn⟩)
          · exact Or.inl hk
          · exact Or.inr ⟨g, List.mem_cons_of_mem _ hg, hgi, hgn⟩
        · rintro (hk | ⟨g, hg, hgi, hgn⟩)
          · exact Or.inl hk
          · rcases List.mem_cons.mp hg with rfl | hg2
            · rw [show Fld.name (.mk nm df t) = nm from rfl] at hgi
              rw [hgi] at h
              cases h
            · exact Or.inr ⟨g, hg2, hgi, hgn⟩
      · have h' : startsUnderscore nm = false := by
          simp only [Bool.not_eq_true] at h
          exact h
        rw [fieldsLoop, if_neg h]
        rcases hts : type_to_schema t d with ⟨prop, d1⟩
        dsimp only
        rw [ih, mem_keysOf_dset]
        constructor
        · rintro ((hk | rfl) | ⟨g, hg, hgi, hgn⟩)
          · exact Or.inl hk
          · exact Or.inr ⟨.mk k df t, List.mem_cons_self _ _, by simpa [Fld.name] using h', rfl⟩
          · exact Or.inr ⟨g, List.mem_cons_of_mem _ hg, hgi, hgn⟩
        · rintro (hk | ⟨g, hg, hgi, hgn⟩)
          · exact Or.inl (Or.inl hk)
          · rcases List.mem_cons.mp hg with rfl | hg2
            · rw [show Fld.name (.mk nm df t) = nm from rfl] at hgn
              exact Or.inl (Or.inr hgn.symm)
            · exact Or.inr ⟨g, hg2, hgi, hgn⟩

/-- Shape of a compiled-and-transformed object schema: properties keys
camel-cased, required strings untouched. -/
theorem stored_schema_shape (props : AList Val) (req : List String) :
    schemaProps (deepChange snake_case_to_camel_case (mkObjSchema props req)) =
      deepChangeObj snake_case_to_camel_case props ∧
    schemaRequired (deepChange snake_case_to_camel_case (mkObjSchema props req)) =
      (if req.isEmpty then none else some (.vArr (req.map Val.vStr))) := by
  have ht : snake_case_to_camel_case "type" = "type" := rfl
  have hp : snake_case_to_camel_case "properties" = "properties" := rfl
  have hr : snake_case_to_camel_case "required" = "required" := rfl
  by_cases h : req.isEmpty
  · constructor <;>
      simp [mkObjSchema, h, deepChange, deepChangeObj, schemaProps, schemaRequired,
        dget, ht, hp, hr]
  · constructor <;>
      simp [mkObjSchema, h, deepChange, deepChangeObj, schemaProps, schemaRequired,
        dget, ht, hp, hr, deepChangeList_strings]

/-- Recovering the strings of a rendered string array. -/
theorem filterMap_vStr (req : List String) :
    (req.map Val.vStr).filterMap
      (fun x => match x with | .vStr s => some s | _ => none) = req := by
  induction req with
  | nil => rfl
  | cons a rest ih => simp [ih]

/-- C6: `deep_change_keys_by_format` rewrites mapping keys at every
nesting level but returns string list elements unchanged; consequently,
for every record with a non-internal, non-optional field whose name is
underscore-separated, the stored (camel-cased) schema keeps the original
snake-case name in `required` while its `properties` keys are
camel-cased, so the required name names no property of the stored
schema. -/
theorem camel_transform_breaks_required :
    (∀ (fm : String → String) (ss : List String),
      deepChange fm (.vArr (ss.map Val.vStr)) = .vArr (ss.map Val.vStr)) ∧
    (∀ (fm : String → String) (kvs : List (String × Val)),
      deepChange fm (.vObj kvs) = .vObj (deepChangeObj fm kvs)) ∧
    (∀ (name : String) (flds : List Fld) (d : AList Val) (f : Fld),
      f ∈ flds → startsUnderscore f.name = false → is_optional f.ty = false →
      '_' ∈ f.name.data →
      (f.name ∈ requiredStrings
        (deepChange snake_case_to_camel_case
          (dataclass_to_openapi_schema name flds d).1) ∧
       snake_case_to_camel_case f.name ∈ propsKeys
        (deepChange snake_case_to_camel_case
          (dataclass_to_openapi_schema name flds d).1) ∧
       ¬ f.name ∈ propsKeys
        (deepChange snake_case_to_camel_case
          (dataclass_to_openapi_schema name flds d).1))) := by
  refine ⟨?_, ?_, ?_⟩
  · intro fm ss
    rw [deepChange, deepChangeList_strings]
  · intro fm kvs
    rfl
  · intro name flds d f hf hni hop hus
    have hreq := fieldsLoop_required flds [] [] d
    rcases hfl : fieldsLoop flds [] [] d with ⟨props, req, d2⟩
    rw [hfl] at hreq
    simp only [List.nil_append] at hreq
    have hcompiled : (dataclass_to_openapi_schema name flds d).1 = mkObjSchema props req := by
      unfold dataclass_to_openapi_schema
      rw [hfl]
    rw [hcompiled]
    have hshape := stored_schema_shape props req
    have hfmem : f ∈ flds.filter (fun g => !startsUnderscore g.name && !is_optional g.ty) :=
      List.mem_filter.mpr ⟨hf, by rw [hni, hop]; rfl⟩
    have hnmem : f.name ∈ req := by
      rw [hreq]
      exact List.mem_map.mpr ⟨f, hfmem, rfl⟩
    have hne : req.isEmpty = false := by
      cases hr : req with
      | nil => rw [hr] at hnmem; cases hnmem
      | cons a rest => rfl
    have hkmem : f.name ∈ keysOf props := by
      rw [show props = (fieldsLoop flds [] [] d).1 by rw [hfl]]
      exact (fieldsLoop_props_mem flds [] [] d f.name).mpr
        (Or.inr ⟨f, hf, hni, rfl⟩)
    refine ⟨?_, ?_, ?_⟩
    · unfold requiredStrings
      rw [hshape.2, hne]
      simp only [Bool.false_eq_true, if_false]
      rw [filterMap_vStr]
      exact hnmem
    · unfold propsKeys
      rw [hshape.1, keysOf_deepChangeObj]
      exact List.mem_map.mpr ⟨f.name, hkmem, rfl⟩
    · unfold propsKeys
      rw [hshape.1, keysOf_deepChangeObj]
      intro hmem
      rcases List.mem_map.mp hmem with ⟨x, _, hx⟩
      exact us_string_ne_camel f.name x hus hx.symm

/-- Witness for C6 at the record `{user_name: string}`. -/
theorem camel_transform_breaks_required_witness :
    "user_name" ∈ requiredStrings
      (deepChange snake_case_to_camel_case
        (dataclass_to_openapi_schema "R" snakeFields []).1) ∧
    "userName" ∈ propsKeys
      (deepChange snake_case_to_camel_case
        (dataclass_to_openapi_schema "R" snakeFields []).1) ∧
    ¬ "user_name" ∈ propsKeys
      (deepChange snake_case_to_camel_case
        (dataclass_to_openapi_schema "R" snakeFields []).1) := by
  have h := camel_transform_breaks_required.2.2 "R" snakeFields []
    (.mk "user_name" none .tStr) (List.mem_singleton.mpr rfl) rfl rfl (by decide)
  exact ⟨h.1, by simpa using h.2.1, h.2.2⟩

/-! ## Canonical parameter keys never collide with different values -/

/-- Lower-cased characters are never upper case. -/
theorem upFree_pyLowerL (w : List Char) : upFree (pyLowerL w) := by
  intro c hc
  rcases List.mem_map.mp hc with ⟨c2, _, rfl⟩
  exact lowerCh_not_upper c2

/-- Boolean check implying `upFree`, for concrete character lists. -/
theorem upFree_of_all (l : List Char) (h : l.all (fun c => !isUpperCh c) = true) :
    upFree l := by
  intro c hc
  have h2 := List.all_eq_true.mp h c hc
  simpa using h2

/-- `str.capitalize` output has the canonical shape: empty, or one head
character followed by upper-free characters. -/
theorem capShaped_pyCapitalize (s : String) : capShaped (pyCapitalize s) := by
  unfold capShaped pyCapitalize
  cases hs : s.data with
  | nil => exact Or.inl (by simp [pyCapitalizeL])
  | cons c w =>
    exact Or.inr ⟨upperCh c, pyLowerL w, by simp [pyCapitalizeL], upFree_pyLowerL w⟩

/-- Splitting at the first upper-case character of an upper-free prefix
followed by an upper-case marker. -/
theorem splitU_append (w v : List Char) (c : Char) (hw : upFree w)
    (hc : isUpperCh c = true) : splitU (w ++ c :: v) = (w, c :: v) := by
  induction w with
  | nil => simp [splitU, hc]
  | cons a rest ih =>
    have ha : isUpperCh a = false := hw a (List.mem_cons_self a rest)
    have hrest : upFree rest := fun x hx => hw x (List.mem_cons_of_mem a hx)
    simp [splitU, ha, ih hrest]

/-- Strings with equal character lists are equal. -/
theorem string_ext_data {a b : String} (h : a.data = b.data) : a = b := by
  cases a with
  | mk da =>
    cases b with
    | mk db =>
      simp only at h
      rw [h]

/-- Cancelling equal upper-free prefixes in front of the same upper-case
marker. -/
theorem append_marker_inj (w1 w2 x1 x2 : List Char) (c : Char)
    (hw1 : upFree w1) (hw2 : upFree w2) (hc : isUpperCh c = true)
    (heq : w1 ++ c :: x1 = w2 ++ c :: x2) : w1 = w2 ∧ x1 = x2 := by
  have h1 := splitU_append w1 x1 c hw1 hc
  have h2 := splitU_append w2 x2 c hw2 hc
  rw [heq, h2] at h1
  have hfst := congrArg Prod.fst h1
  have hsnd := congrArg Prod.snd h1
  simp only at hfst hsnd
  refine ⟨hfst.symm, ?_⟩
  injection hsnd with _ h3
  exact h3.symm

/-- Upper-free prefixes followed by distinct upper-case markers give
distinct lists. -/
theorem append_marker_ne (w1 w2 x1 x2 : List Char) (c1 c2 : Char)
    (hw1 : upFree w1) (hw2 : upFree w2) (hc1 : isUpperCh c1 = true)
    (hc2 : isUpperCh c2 = true) (hne : c1 ≠ c2) :
    w1 ++ c1 :: x1 ≠ w2 ++ c2 :: x2 := by
  intro heq
  have h1 := splitU_append w1 x1 c1 hw1 hc1
  have h2 := splitU_append w2 x2 c2 hw2 hc2
  rw [heq, h2] at h1
  have hsnd := congrArg Prod.snd h1
  simp only at hsnd
  injection hsnd with h3 _
  exact hne h3.symm

/-- The tails after the second `P` of one versus two `PathParameters`
blocks can never agree. -/
theorem athP_tail_ne (p1 p2 : List Char) :
    "arameters".data ++ p1 ≠ "athParameters".data ++ p2 := by
  intro h
  have h2 : 'a' :: 'r' :: ("ameters".data ++ p1) =
      'a' :: 't' :: ("hParameters".data ++ p2) := h
  injection h2 with _ h3
  injection h3 with h4 _
  exact absurd h4 (by decide)

/-- A domain-qualified path-parameter key determines its domain and its
property suffix uniquely (for capitalize-shaped domains). -/
theorem ppKeyOf_inj (D1 D2 p1 p2 : String) (h1 : capShaped D1) (h2 : capShaped D2)
    (heq : ppKeyOf D1 p1 = ppKeyOf D2 p2) : D1 = D2 ∧ p1 = p2 := by
  have hdata : (D1.data ++ "PathParameters".data) ++ p1.data =
      (D2.data ++ "PathParameters".data) ++ p2.data := congrArg String.data heq
  rcases h1 with h1 | ⟨c1, w1, hD1, hw1⟩
  · rcases h2 with h2 | ⟨c2, w2, hD2, hw2⟩
    · rw [h1, h2] at hdata
      have hcast : ("PathParameters".data : List Char) ++ p1.data =
          "PathParameters".data ++ p2.data := hdata
      have hp := List.append_cancel_left hcast
      exact ⟨string_ext_data (h1.trans h2.symm), string_ext_data hp⟩
    · exfalso
      rw [h1, hD2] at hdata
      simp only [List.nil_append, List.cons_append, List.append_assoc] at hdata
      have hdata2 : 'P' :: ("athParameters".data ++ p1.data) =
          c2 :: (w2 ++ ('P' :: ("athParameters".data ++ p2.data))) := hdata
      injection hdata2 with hc ht
      have ht2 : "ath".data ++ 'P' :: ("arameters".data ++ p1.data) =
          w2 ++ 'P' :: ("athParameters".data ++ p2.data) := ht
      have hinj := append_marker_inj "ath".data w2 _ _ 'P' (upFree_of_all _ rfl) hw2 (by decide) ht2
      exact athP_tail_ne p1.data p2.data hinj.2
  · rcases h2 with h2 | ⟨c2, w2, hD2, hw2⟩
    · exfalso
      rw [hD1, h2] at hdata
      simp only [List.nil_append, List.cons_append, List.append_assoc] at hdata
      have hdata2 : c1 :: (w1 ++ ('P' :: ("athParameters".data ++ p1.data))) =
          'P' :: ("athParameters".data ++ p2.data) := hdata
      injection hdata2 with hc ht
      have ht2 : w1 ++ 'P' :: ("athParameters".data ++ p1.data) =
          "ath".data ++ 'P' :: ("arameters".data ++ p2.data) := ht
      have hinj := append_marker_inj w1 "ath".data _ _ 'P' hw1 (upFree_of_all _ rfl) (by decide) ht2
      exact athP_tail_ne p2.data p1.data hinj.2.symm
    · rw [hD1, hD2] at hdata
      simp only [List.cons_append, List.append_assoc] at hdata
      have hdata2 : c1 :: (w1 ++ ('P' :: ("athParameters".data ++ p1.data))) =
          c2 :: (w2 ++ ('P' :: ("athParameters".data ++ p2.data))) := hdata
      injection hdata2 with hc ht
      have hinj := append_marker_inj w1 w2 _ _ 'P' hw1 hw2 (by decide) ht
      have hcast : ("athParameters".data : List Char) ++ p1.data =
          "athParameters".data ++ p2.data := hinj.2
      have hp := List.append_cancel_left hcast
      constructor
      · apply string_ext_data
        rw [hD1, hD2, hc, hinj.1]
      · exact string_ext_data hp

/-- A query-group key never coincides with a path-parameter key (for
capitalize-shaped domains). -/
theorem qsKey_ne_ppKey (D1 D2 p2 : String) (h1 : capShaped D1) (h2 : capShaped D2) :
    qsKeyOf D1 ≠ ppKeyOf D2 p2 := by
  intro heq
  have hdata : D1.data ++ "QueryStringParameters".data =
      (D2.data ++ "PathParameters".data) ++ p2.data := congrArg String.data heq
  rcases h1 with h1 | ⟨c1, w1, hD1, hw1⟩
  · rcases h2 with h2 | ⟨c2, w2, hD2, hw2⟩
    · rw [h1, h2] at hdata
      have hdata2 : 'Q' :: ("ueryStringParameters".data : List Char) =
          'P' :: ("athParameters".data ++ p2.data) := hdata
      injection hdata2 with hc _
      exact absurd hc (by decide)
    · rw [h1, hD2] at hdata
      simp only [List.nil_append, List.cons_append, List.append_assoc] at hdata
      have hdata2 : 'Q' :: ("ueryStringParameters".data : List Char) =
          c2 :: (w2 ++ ('P' :: ("athParameters".data ++ p2.data))) := hdata
      injection hdata2 with hc ht
      have ht2 : "uery".data ++ 'S' :: ("tringParameters".data : List Char) =
          w2 ++ 'P' :: ("athParameters".data ++ p2.data) := ht
      exact append_marker_ne "uery".data w2 _ _ 'S' 'P'
        (upFree_of_all _ rfl) hw2 (by decide) (by decide) (by decide) ht2
  · rcases h2 with h2 | ⟨c2, w2, hD2, hw2⟩
    · rw [hD1, h2] at hdata
      simp only [List.nil_append, List.cons_append, List.append_assoc] at hdata
      have hdata2 : c1 :: (w1 ++ ('Q' :: ("ueryStringParameters".data : List Char))) =
          'P' :: ("athParameters".data ++ p2.data) := hdata
      injection hdata2 with hc ht
      have ht2 : w1 ++ 'Q' :: ("ueryStringParameters".data : List Char) =
          "ath".data ++ 'P' :: ("arameters".data ++ p2.data) := ht
      exact append_marker_ne w1 "ath".data _ _ 'Q' 'P'
        hw1 (upFree_of_all _ rfl) (by decide) (by decide) (by decide) ht2
    · rw [hD1, hD2] at hdata
      simp only [List.cons_append, List.append_assoc] at hdata
      have hdata2 : c1 :: (w1 ++ ('Q' :: ("ueryStringParameters".data : List Char))) =
          c2 :: (w2 ++ ('P' :: ("athParameters".data ++ p2.data))) := hdata
      injection hdata2 with hc ht
      exact append_marker_ne w1 w2 _ _ 'Q' 'P'
        hw1 hw2 (by decide) (by decide) (by decide) ht

/-- A canonical parameter key fully determines its parameter object. -/
theorem canonParam_value_unique (k : String) (v1 v2 : Val)
    (h1 : canonParam k v1) (h2 : canonParam k v2) : v1 = v2 := by
  rcases h1 with ⟨Da, hca, hka, hva⟩ | ⟨Da, pa, hca, hka, hva⟩
  · rcases h2 with ⟨Db, hcb, hkb, hvb⟩ | ⟨Db, pb, hcb, hkb, hvb⟩
    · rw [hva, hvb]
    · exact absurd (hka.symm.trans hkb) (qsKey_ne_ppKey Da Db pb hca hcb)
  · rcases h2 with ⟨Db, hcb, hkb, hvb⟩ | ⟨Db, pb, hcb, hkb, hvb⟩
    · exact absurd (hkb.symm.trans hka) (qsKey_ne_ppKey Db Da pa hcb hca)
    · have hinj := ppKeyOf_inj Da Db pa pb hca hcb (hka.symm.trans hkb)
      rw [hva, hvb, hinj.2]

/-- Merging canonical entries into a canonical dict keeps every earlier
entry unchanged and stays canonical. -/
theorem dupdate_canon : ∀ (N P : AList Val), paramsCanon P →
    (∀ kv ∈ N, canonParam kv.1 kv.2) →
    paramsCanon (dupdate P N) ∧
    (∀ (k : String) (v : Val), dget P k = some v → dget (dupdate P N) k = some v) := by
  intro N
  induction N with
  | nil => exact fun P hP _ => ⟨hP, fun k v h => h⟩
  | cons a rest ih =>
    intro P hP hN
    have ha := hN a (List.mem_cons_self a rest)
    have hrest : ∀ kv ∈ rest, canonParam kv.1 kv.2 :=
      fun kv hkv => hN kv (List.mem_cons_of_mem a hkv)
    have hP2 : paramsCanon (dset P a.1 a.2) := by
      intro kv hkv
      rcases mem_dset P a.1 a.2 kv hkv with h | h
      · exact hP kv h
      · rw [h]
        exact ha
    have hstep : ∀ (k : String) (v : Val), dget P k = some v →
        dget (dset P a.1 a.2) k = some v := by
      intro k v h
      by_cases hk : k = a.1
      · have hc1 : canonParam k v := hP (k, v) (mem_of_dget P k v h)
        have ha2 : canonParam k a.2 := by
          rw [hk]
          exact ha
        have hveq : v = a.2 := canonParam_value_unique k v a.2 hc1 ha2
        rw [hveq, hk]
        exact dget_dset_self P a.1 a.2
      · rw [dget_dset_ne P a.1 k a.2 hk]
        exact h
    have hres := ih (dset P a.1 a.2) hP2 hrest
    refine ⟨?_, ?_⟩
    · rw [show dupdate P (a :: rest) = dupdate (dset P a.1 a.2) rest from rfl]
      exact hres.1
    · intro k v h
      rw [show dupdate P (a :: rest) = dupdate (dset P a.1 a.2) rest from rfl]
      exact hres.2 k v (hstep k v h)

/-! ## The parameter entries one endpoint synthesizes are canonical -/

/-- The query block only adds the canonical query parameter. -/
theorem queryBlock_lp_canon (D : String) (st : StepState) (hD : capShaped D)
    (hst : ∀ kv ∈ st.lp, canonParam kv.1 kv.2) :
    ∀ kv ∈ (queryBlock D st).lp, canonParam kv.1 kv.2 := by
  unfold queryBlock
  cases hq : dget st.S (groupTarget st.S "queryStringParameters" "QueryStringParameters") with
  | none =>
    simp only [hq]
    exact hst
  | some v =>
    simp only [hq]
    intro kv hkv
    rcases mem_dset _ _ _ kv hkv with h | h
    · exact hst kv h
    · rw [h]
      exact Or.inl ⟨D, hD, rfl, rfl⟩

/-- The path-property loop only adds canonical path parameters. -/
theorem pathPropsLoop_lp_canon (D : String) (props : List (String × Val)) :
    ∀ (st : StepState), capShaped D →
    (∀ kv ∈ st.lp, canonParam kv.1 kv.2) →
    ∀ kv ∈ (pathPropsLoop (D ++ "PathParameters") props st).lp, canonParam kv.1 kv.2 := by
  induction props with
  | nil =>
    intro st hD hst kv hkv
    rw [pathPropsLoop] at hkv
    exact hst kv hkv
  | cons pv rest ih =>
    intro st hD hst kv hkv
    cases pv with
    | mk p v =>
      rw [pathPropsLoop] at hkv
      refine ih _ hD ?_ kv hkv
      intro kv2 hkv2
      rcases mem_dset _ _ _ kv2 hkv2 with h | h
      · exact hst kv2 h
      · rw [h]
        exact Or.inr ⟨D, p, hD, rfl, rfl⟩

/-- The path block only adds canonical path parameters. -/
theorem pathBlock_lp_canon (D : String) (st st2 : StepState) (hD : capShaped D)
    (hst : ∀ kv ∈ st.lp, canonParam kv.1 kv.2)
    (h : pathBlock D st = .ok st2) :
    ∀ kv ∈ st2.lp, canonParam kv.1 kv.2 := by
  unfold pathBlock at h
  cases hq : dget st.S (groupTarget st.S "pathParameters" "PathParameters") with
  | none =>
    simp only [hq] at h
    injection h with h2
    rw [← h2]
    exact hst
  | some v =>
    simp only [hq] at h
    cases v with
    | vObj kvs =>
      cases hp : dget kvs "properties" with
      | none =>
        simp only [hp] at h
        cases h
      | some pv =>
        simp only [hp] at h
        cases pv with
        | vObj props =>
          injection h with h2
          rw [← h2]
          exact pathPropsLoop_lp_canon D props _ hD hst
        | vStr s => cases h
        | vInt n => cases h
        | vBool b => cases h
        | vArr l => cases h
    | vStr s => cases h
    | vInt n => cases h
    | vBool b => cases h
    | vArr l => cases h

/-- The body block does not touch the local parameters dict. -/
theorem bodyBlock_lp (D : String) (st : StepState) : (bodyBlock D st).1.lp = st.lp := by
  unfold bodyBlock
  cases hq : dget st.S (groupTarget st.S "bodyInput" "BodyInput") <;> simp [hq]

/-- A successful request-body computation attaches a body exactly when
the `bodyInput` class attribute is truthy. -/
theorem requestBodyOf_isSome (inp : RecCls) (b : Option String) (rb : Option Val)
    (h : requestBodyOf inp b = .ok rb) : rb.isSome = bodyInputTruthy inp := by
  unfold requestBodyOf at h
  by_cases ht : bodyInputTruthy inp = true
  · rw [if_pos ht] at h
    cases b with
    | none => cases h
    | some k =>
      injection h with h2
      rw [← h2, ht]
      rfl
  · rw [if_neg ht] at h
    injection h with h2
    rw [← h2]
    have ht2 : bodyInputTruthy inp = false := by
      simp only [Bool.not_eq_true] at ht
      exact ht
    rw [ht2]
    rfl

/-- Looking up the method entry just committed. -/
theorem pathMethod_commit (S P : AList Val) (paths : AList (AList MethodInfo))
    (p m : String) (mi : MethodInfo) :
    pathMethod ⟨S, P, commitPath paths p m mi⟩ p m = some mi := by
  unfold pathMethod commitPath
  dsimp only
  rw [dget_dset_self]
  exact dget_dset_self _ _ _

/-- Inversion of one successful `processOne` call: the input class
exists, the document's parameters were extended by a merge of canonical
entries only, the committed method entry is retrievable, and its request
body tracks the `bodyInput` attribute's truthiness. -/
theorem processOne_ok_main (toCamel : Bool) (d : Doc) (svc : Svc) (d' : Doc)
    (h : processOne toCamel d svc = .ok d') :
    ∃ (inp : RecCls) (lp : AList Val) (mi : MethodInfo),
      svc.serviceInput = some inp ∧
      (∀ kv ∈ lp, canonParam kv.1 kv.2) ∧
      d'.parameters = dupdate d.parameters lp ∧
      pathMethod d' (normalizePath svc.httpPath) (pyLower svc.httpMethod) = some mi ∧
      mi.requestBody.isSome = bodyInputTruthy inp := by
  unfold processOne at h
  cases hin : svc.serviceInput with
  | none =>
    rw [hin] at h
    cases h
  | some inp =>
  rw [hin] at h
  dsimp only at h
  cases hdn : domainNameRaw inp with
  | error e =>
    rw [hdn] at h
    cases h
  | ok rawD =>
  rw [hdn] at h
  dsimp only at h
  cases hout : svc.serviceOutput with
  | none =>
    rw [hout] at h
    cases h
  | some outCls =>
  rw [hout] at h
  dsimp only at h
  split at h
  · cases h
  case _ st2 hpb =>
  split at h
  · cases h
  case _ rb hrb =>
  split at h
  · cases h
  case _ out hob =>
  injection h with h2
  rw [← h2]
  have hD : capShaped (pyCapitalize rawD) := capShaped_pyCapitalize rawD
  have hcanon1 : ∀ kv ∈ (queryBlock (pyCapitalize rawD)
      (⟨setSchemas toCamel (setSchemas toCamel (cleanupRef (cleanupRef
        (popIf (setSchemas toCamel d.schemas
          (schemaProps (dataclass_to_openapi_schema inp.cname inp.cfields []).1))
          "domainName") "pathPatameters") "queryStringParameters")
        (dataclass_to_openapi_schema inp.cname inp.cfields []).2)
        (dataclass_to_openapi_schema outCls.cname outCls.cfields []).2, [], []⟩)).lp,
      canonParam kv.1 kv.2 := by
    apply queryBlock_lp_canon _ _ hD
    intro kv hkv
    cases hkv
  have hcanon2 := pathBlock_lp_canon (pyCapitalize rawD) _ st2 hD hcanon1 hpb
  refine ⟨inp, (bodyBlock (pyCapitalize rawD) st2).1.lp,
    ⟨svc.operationId, svc.description, out.2, (bodyBlock (pyCapitalize rawD) st2).1.mp, rb⟩,
    rfl, ?_, rfl, ?_, ?_⟩
  · rw [bodyBlock_lp]
    exact hcanon2
  · exact pathMethod_commit _ _ _ _ _ _
  · exact requestBodyOf_isSome inp _ rb hrb

/-- One successful endpoint keeps `components.parameters` canonical and
preserves every earlier entry. -/
theorem processOne_params (toCamel : Bool) (d : Doc) (svc : Svc) (d' : Doc)
    (hc : paramsCanon d.parameters) (h : processOne toCamel d svc = .ok d') :
    paramsCanon d'.parameters ∧
    (∀ (k : String) (v : Val), dget d.parameters k = some v →
      dget d'.parameters k = some v) := by
  obtain ⟨inp, lp, mi, _, hlp, hparams, _, _⟩ := processOne_ok_main toCamel d svc d' h
  rw [hparams]
  exact ⟨(dupdate_canon lp d.parameters hc hlp).1,
    (dupdate_canon lp d.parameters hc hlp).2⟩

/-- A successful fold over any endpoint list keeps `components.parameters`
canonical and preserves every earlier entry. -/
theorem process_services_params (toCamel : Bool) (svcs : List Svc) :
    ∀ (d d' : Doc), paramsCanon d.parameters →
    process_services toCamel svcs d = .ok d' →
    paramsCanon d'.parameters ∧
    (∀ (k : String) (v : Val), dget d.parameters k = some v →
      dget d'.parameters k = some v) := by
  induction svcs with
  | nil =>
    intro d d' hc h
    rw [process_services] at h
    injection h with h2
    rw [← h2]
    exact ⟨hc, fun k v hv => hv⟩
  | cons s rest ih =>
    intro d d' hc h
    rw [process_services] at h
    cases hp : processOne toCamel d s with
    | error e =>
      rw [hp] at h
      cases h
    | ok d1 =>
      rw [hp] at h
      have h1 := processOne_params toCamel d s d1 hc hp
      have h2 := ih d1 d' h1.1 h
      exact ⟨h2.1, fun k v hv => h2.2 k v (h1.2 k v hv)⟩

/-- C2: across the fold of `process_services`, merging a later endpoint's
synthesized parameter objects into `components.parameters` never changes
an entry written for an earlier endpoint: every key/value pair present
after processing a first batch of endpoints is still present, unchanged,
after processing any further batch.  (The `|=` merge can rewrite a
colliding key, but the synthesized objects are fully determined by their
domain-qualified keys, so the rewritten value is always equal.) -/
theorem params_merge_preserves (toCamel : Bool) (svcs1 svcs2 : List Svc) (d1 d2 : Doc)
    (h1 : process_services toCamel svcs1 build_openapi_base = .ok d1)
    (h2 : process_services toCamel svcs2 d1 = .ok d2)
    (k : String) (v : Val) (hv : dget d1.parameters k = some v) :
    dget d2.parameters k = some v := by
  have hc0 : paramsCanon build_openapi_base.parameters := by
    intro kv hkv
    cases hkv
  have hA := process_services_params toCamel svcs1 build_openapi_base d1 hc0 h1
  have hB := process_services_params toCamel svcs2 d1 d2 hA.1 h2
  exact hB.2 k v hv

/-- Witness for C2: the example endpoint processed twice; the query
parameter written by the first pass is untouched by the second. -/
theorem params_merge_preserves_witness :
    dget exDocV2.parameters "_QueryStringParameters" =
      some (queryParamVal "_QueryStringParameters") := by
  have h1 : process_services true [endpoint_config] build_openapi_base = .ok exDocV := rfl
  have h2 : process_services true [endpoint_config] exDocV = .ok exDocV2 := rfl
  exact params_merge_preserves true [endpoint_config] [endpoint_config] exDocV exDocV2
    h1 h2 "_QueryStringParameters" (queryParamVal "_QueryStringParameters") rfl

/-! ## C9: requestBody tracks the bodyInput class attribute -/

/-- C9: a successful `processOne` attaches a `requestBody` to the method
entry it writes iff the input class's `bodyInput` attribute is truthy;
in particular an input class declaring `bodyInput` as a default-less
dataclass field inherits `None` from `AbstractInput`, so its endpoint
gets no `requestBody` even though the field is declared (and even though
its `BodyInput` group schema is processed and renamed). -/
theorem requestBody_iff_truthy :
    (∀ (toCamel : Bool) (d : Doc) (svc : Svc) (d' : Doc) (inp : RecCls),
      processOne toCamel d svc = .ok d' → svc.serviceInput = some inp →
      ∃ mi, pathMethod d' (normalizePath svc.httpPath) (pyLower svc.httpMethod) =
          some mi ∧
        mi.requestBody.isSome = bodyInputTruthy inp) ∧
    bodyInputTruthy inputBodyDeclared = false ∧
    (match processOne true build_openapi_base svcBodyDeclared with
     | .ok dd =>
       (pathMethod dd "/body" "post").map MethodInfo.requestBody = some none ∧
       hasKey dd.schemas "_BodyInput" = true
     | .error _ => False) := by
  refine ⟨?_, rfl, rfl, rfl⟩
  intro toCamel d svc d' inp h hin
  obtain ⟨inp2, lp, mi, hin2, _, _, hpm, hrb⟩ := processOne_ok_main toCamel d svc d' h
  rw [hin] at hin2
  injection hin2 with h3
  rw [h3]
  exact ⟨mi, hpm, hrb⟩

/-- Witness for C9 at the declared-body-without-default endpoint. -/
theorem requestBody_iff_truthy_witness :
    (pathMethod svcBodyDoc "/body" "post").map (fun mi => mi.requestBody.isSome) =
      some (bodyInputTruthy inputBodyDeclared) := by
  obtain ⟨mi, h1, h2⟩ := requestBody_iff_truthy.1 true build_openapi_base
    svcBodyDeclared svcBodyDoc inputBodyDeclared rfl rfl
  have h1b : pathMethod svcBodyDoc "/body" "post" = some mi := h1
  rw [h1b]
  simp [h2]

end OpenapiGen
